import Mathlib

/-!
# Verification of the js-model Model/Collection library

Shallow embedding of `src/Model.ts`, `src/Collection.ts` and `src/DataProxy.ts`.

JavaScript values that flow through model properties are modelled by `Val`;
plain objects (`PropertiesObject`) by association lists in key insertion
order, matching JS object key semantics for string keys: assignment to an
existing key updates it in place, a new key is appended.

The property-interception layer (`proxyHandler.set` in `Model.ts`) is
modelled by `proxySetProp` for non-internal properties; writes to the
reserved internal fields (`internalModelProps`, lines 16-19 of `Model.ts`)
bypass capture and mutation and store directly, which in this embedding is
the direct record-field update performed by the corresponding operation
(`commit`, `rollback`, `load`, ...). Theorems that quantify over property
names therefore restrict to non-internal names where the claim does.

Mutation functions (`mutations()` table) are modelled as value transforms
`Val → Val`; the JS `this`-binding of the mutation function (the ability to
read sibling properties mid-transform) is not represented, as no claim
depends on it.

Adapter (`DataProxy`) methods are modelled as pure functions returning
`Except ε (Option PropsObj)`: `Except.error` is a rejected promise,
`Option` the `patch | null` result. `load`/`save`/`destroy` additionally
return the list of adapter methods invoked, in order, so that
"calls create exactly once and never update" is a statement about the
returned trace. An `Except.error` result models the JS behaviour that the
rejection propagates unchanged and none of the statements after the `await`
run: no successor state is produced, the caller still holds the unmodified
instance state.
-/

namespace JsModel

/-- A JavaScript value stored in a model property. -/
inductive Val where
  | vNull
  | vUndef
  | vBool (b : Bool)
  | vInt (n : Int)
  | vStr (s : String)
deriving DecidableEq, Repr

/-- A plain JS object (`PropertiesObject`): keys in insertion order. -/
abbrev PropsObj := List (String × Val)

/-- `Object.keys(ps).includes(k)`. -/
def hasKey (ps : PropsObj) (k : String) : Bool :=
  ps.any (fun kv => kv.1 = k)

/-- Key lookup returning `none` when the key is absent. -/
def dlookup (ps : PropsObj) (k : String) : Option Val :=
  (ps.find? (fun kv => kv.1 = k)).map (fun kv => kv.2)

/-- `ps[k]`: property read, JS yields `undefined` for a missing key. -/
def getProp (ps : PropsObj) (k : String) : Val :=
  Option.getD (dlookup ps k) Val.vUndef

/-- Update one entry of the list in place when its key is `k`. -/
def updEntry (k : String) (v : Val) (kv : String × Val) : String × Val :=
  if kv.1 = k then (k, v) else kv

/-- `ps[k] = v`: update in place when the key exists, else append. -/
def setProp (ps : PropsObj) (k : String) (v : Val) : PropsObj :=
  if hasKey ps k then ps.map (updEntry k v)
  else ps ++ [(k, v)]

/-- The subtype's `mutations()` table: property name to transform. -/
def Mutations : Type := String → Option (Val → Val)

/-- Look up and apply the mutation for `p`, if one is registered
(`Model.ts` lines 31-35). -/
def applyMut (muts : Mutations) (p : String) (v : Val) : Val :=
  match muts p with
  | some f => f v
  | none => v

/-- The reserved internal fields of `Model.ts` (line 4). -/
def internalModelProps : List String :=
  ["_dirtyProps", "_rollbackMode", "_isPhantom", "_isDestroyed", "_className", "_queryParams"]

/-- The state of one Model instance: its data properties plus the
internal fields (`_dirtyProps`, `_rollbackMode`, `_isPhantom`,
`_isDestroyed`, `_className`, `_queryParams`). -/
structure ModelState where
  props : PropsObj
  dirtyProps : PropsObj
  rollbackMode : Bool
  isPhantom : Bool
  isDestroyed : Bool
  className : String
  queryParams : PropsObj
deriving Repr

/-- `proxyHandler.set` (`Model.ts` lines 26-38) for a non-internal
property: capture-once into `_dirtyProps`, then apply the mutation unless
in rollback mode, then store. Internal properties (lines 16-19) store
directly into the corresponding record field and are modelled by the direct
field updates of the operations below. -/
def proxySetProp (muts : Mutations) (st : ModelState) (p : String) (v : Val) : ModelState :=
  let st1 :=
    if hasKey st.dirtyProps p then st
    else { st with dirtyProps := st.dirtyProps ++ [(p, getProp st.props p)] }
  let w := if st.rollbackMode then v else applyMut muts p v
  { st1 with props := setProp st1.props p w }

/-- `Model.set(data)`: `Object.assign(this, data)` writes each key through
the interception layer, in key order (`Model.ts` lines 91-98). -/
def Model.set (muts : Mutations) (st : ModelState) (data : PropsObj) : ModelState :=
  data.foldl (fun s kv => proxySetProp muts s kv.1 kv.2) st

/-- `Model.isDirty()` (`Model.ts` lines 113-115). -/
def Model.isDirty (st : ModelState) : Bool :=
  st.dirtyProps.length > 0

/-- `Model.commit(data?)` (`Model.ts` lines 117-123): optionally bulk-set
the patch, then clear the dirty snapshot. -/
def Model.commit (muts : Mutations) (st : ModelState) (data : Option PropsObj) : ModelState :=
  let st1 :=
    match data with
    | some d => Model.set muts st d
    | none => st
  { st1 with dirtyProps := [] }

/-- `Model.rollback()` (`Model.ts` lines 125-131): enter rollback mode,
assign every dirty-snapshot entry back through the interception layer,
clear the snapshot, leave rollback mode. -/
def Model.rollback (muts : Mutations) (st : ModelState) : ModelState :=
  let st1 : ModelState := { st with rollbackMode := true }
  let st2 := st1.dirtyProps.foldl (fun s kv => proxySetProp muts s kv.1 kv.2) st1
  { st2 with dirtyProps := [], rollbackMode := false }

/-- Uppercase a `Val` string; used by the example mutation table below
(the `upName` mutation of the repository's test model). -/
def upVal : Val → Val
  | .vStr s => .vStr s.toUpper
  | _ => .vNull

/-- Example mutation table, mirroring the test model's `mutations()`:
`upName` uppercases, `alwaysPlusOne` increments. -/
def exMuts : Mutations := fun p =>
  if p = "upName" then some upVal
  else if p = "alwaysPlusOne" then some (fun v => match v with
    | .vInt n => .vInt (n + 1)
    | _ => .vNull)
  else none

/-- Example committed model state with one property `a = 1`. -/
def exSt : ModelState :=
  { props := [("a", .vInt 1)], dirtyProps := [], rollbackMode := false,
    isPhantom := true, isDestroyed := false, className := "TestModel", queryParams := [] }

/-- Fresh empty model state, as produced by the base `Model` constructor
(`Model.ts` lines 42-73) before any subtype field initializers run. -/
def exSt0 : ModelState :=
  { props := [], dirtyProps := [], rollbackMode := false, isPhantom := true,
    isDestroyed := false, className := "TestModel", queryParams := [] }

/-- A sequence of single-property writes through the interception layer. -/
def writeSeq (muts : Mutations) (ws : List (String × Val)) (st : ModelState) : ModelState :=
  ws.foldl (fun t kv => proxySetProp muts t kv.1 kv.2) st

/-- The adapter methods a model operation can invoke. -/
inductive AdapterCall where
  | fetch
  | create
  | update
  | delete
deriving DecidableEq, Repr

/-- The single-record part of the storage adapter contract
(`DataProxy.ts`): each method receives the model instance and the merged
query params and returns either a failure (rejected promise, error type
`ε`) or an optional data patch (`patch | null`). -/
structure DataProxy (ε : Type) where
  fetch : ModelState → PropsObj → Except ε (Option PropsObj)
  create : ModelState → PropsObj → Except ε (Option PropsObj)
  update : ModelState → PropsObj → Except ε (Option PropsObj)
  delete : ModelState → PropsObj → Except ε (Option PropsObj)

/-- `{ ...this.queryParams, ...queryParams }`: JS object spread merge,
per-call keys win on collision; a missing/null per-call object spreads
nothing. -/
def mergeParams (perm : PropsObj) (extra : Option PropsObj) : PropsObj :=
  (extra.getD []).foldl (fun acc kv => setProp acc kv.1 kv.2) perm

/-- `Model.load(queryParams?)` (`Model.ts` lines 168-178): adapter fetch,
apply the patch if present, commit, clear phantom and destroyed. The
second component records the adapter methods invoked, in order. A failure
of the adapter call propagates unchanged; none of the following statements
run, so no successor state is produced and the caller still holds the
unmodified instance. -/
def Model.load {ε : Type} (muts : Mutations) (dp : DataProxy ε) (st : ModelState)
    (qp : Option PropsObj) : Except ε ModelState × List AdapterCall :=
  match dp.fetch st (mergeParams st.queryParams qp) with
  | .error e => (.error e, [.fetch])
  | .ok res =>
    let st1 :=
      match res with
      | some r => Model.set muts st r
      | none => st
    let st2 := Model.commit muts st1 none
    (.ok { st2 with isPhantom := false, isDestroyed := false }, [.fetch])

/-- `Model.save(queryParams?)` (`Model.ts` lines 190-204): adapter create
when phantom, else update; apply the patch if present, commit, clear
phantom and destroyed. Trace and failure semantics as in `Model.load`. -/
def Model.save {ε : Type} (muts : Mutations) (dp : DataProxy ε) (st : ModelState)
    (qp : Option PropsObj) : Except ε ModelState × List AdapterCall :=
  let params := mergeParams st.queryParams qp
  let call := if st.isPhantom then (AdapterCall.create, dp.create st params)
              else (AdapterCall.update, dp.update st params)
  match call.2 with
  | .error e => (.error e, [call.1])
  | .ok res =>
    let st1 :=
      match res with
      | some r => Model.set muts st r
      | none => st
    let st2 := Model.commit muts st1 none
    (.ok { st2 with isPhantom := false, isDestroyed := false }, [call.1])

/-- `Model.destroy(queryParams?)` (`Model.ts` lines 206-218): no-op on a
phantom model; otherwise adapter delete, and — only when the adapter
returned a patch — apply it and commit; then set phantom and destroyed.
Trace and failure semantics as in `Model.load`. -/
def Model.destroy {ε : Type} (muts : Mutations) (dp : DataProxy ε) (st : ModelState)
    (qp : Option PropsObj) : Except ε ModelState × List AdapterCall :=
  if st.isPhantom then (.ok st, [])
  else
    match dp.delete st (mergeParams st.queryParams qp) with
    | .error e => (.error e, [.delete])
    | .ok res =>
      let st1 :=
        match res with
        | some r => Model.commit muts (Model.set muts st r) none
        | none => st
      (.ok { st1 with isPhantom := true, isDestroyed := true }, [.delete])

/-- `DummyDataProxy` (`DataProxy.ts`): every single-record method resolves
with `null`. -/
def DummyDataProxy (ε : Type) : DataProxy ε :=
  { fetch := fun _ _ => .ok none, create := fun _ _ => .ok none,
    update := fun _ _ => .ok none, delete := fun _ _ => .ok none }

/-- Example adapter whose every method resolves with the patch
`{id: 42}`. -/
def exPatchProxy : DataProxy Unit :=
  { fetch := fun _ _ => .ok (some [("id", .vInt 42)]),
    create := fun _ _ => .ok (some [("id", .vInt 42)]),
    update := fun _ _ => .ok (some [("id", .vInt 42)]),
    delete := fun _ _ => .ok (some [("id", .vInt 42)]) }

/-- Example adapter whose every method rejects with the string "fail". -/
def exFailProxy : DataProxy String :=
  { fetch := fun _ _ => .error "fail", create := fun _ _ => .error "fail",
    update := fun _ _ => .error "fail", delete := fun _ _ => .error "fail" }

/-- Example persisted, dirty model state: `a` was `1` at the last commit
and was then written to `2`. -/
def exDirtySt : ModelState :=
  { props := [("a", .vInt 2)], dirtyProps := [("a", .vInt 1)], rollbackMode := false,
    isPhantom := false, isDestroyed := false, className := "TestModel", queryParams := [] }

/-- A Model subtype declaration: its logical name, its declared data
fields with default values (in declaration order) and its `mutations()`
table. -/
structure ModelClass where
  name : String
  defaults : PropsObj
  muts : Mutations

/-- `new SubModel()`: the base constructor (`Model.ts` lines 65-73) sets
the class name, clears the dirty store, installs the proxy and commits on
it; then the subtype's declared field initializers run through the
interception layer in declaration order (class fields are assigned after
`super()` returns, on the proxy the constructor returned). -/
def newModel (cls : ModelClass) : ModelState :=
  let base : ModelState :=
    { props := [], dirtyProps := [], rollbackMode := false, isPhantom := true,
      isDestroyed := false, className := cls.name, queryParams := [] }
  let committed := Model.commit cls.muts base none
  cls.defaults.foldl (fun s kv => proxySetProp cls.muts s kv.1 kv.2) committed

/-- A model instance held by a collection, tagged with its runtime class
(`κ` is the type of class tags; a `classOf` function resolves a tag to
its declaration). -/
structure MInst (κ : Type) where
  cls : κ
  st : ModelState

/-- The state of a Collection (`Collection.ts`): the bound element class
`modelCls`, the live backing array `_models`, and the permanent query
params. -/
structure CollectionState (κ : Type) where
  modelCls : κ
  models : List (MInst κ)
  queryParams : PropsObj

/-- An argument to `Collection.push`: a model instance, a plain data
object, or an array of either (the source recurses into arrays). -/
inductive PushEl (κ : Type) where
  | minst (m : MInst κ)
  | pdata (d : PropsObj)
  | parr (l : List (PushEl κ))

mutual

/-- `Collection.push` (`Collection.ts` lines 88-101): an array is pushed
element by element in order; a Model instance is appended as-is; a plain
data object `d` becomes `new this.modelCls(d)` followed by `.set(d)` and
is appended. -/
def Collection.push {κ : Type} (classOf : κ → ModelClass) :
    CollectionState κ → PushEl κ → CollectionState κ
  | cs, .minst m => { cs with models := cs.models ++ [m] }
  | cs, .pdata d =>
    { cs with models := cs.models ++
        [⟨cs.modelCls, Model.set (classOf cs.modelCls).muts (newModel (classOf cs.modelCls)) d⟩] }
  | cs, .parr l => Collection.pushList classOf cs l

/-- `el.forEach((item) => this.push(item))` of `Collection.push`. -/
def Collection.pushList {κ : Type} (classOf : κ → ModelClass) :
    CollectionState κ → List (PushEl κ) → CollectionState κ
  | cs, [] => cs
  | cs, e :: rest => Collection.pushList classOf (Collection.push classOf cs e) rest

end

/-- `Collection.clear()` (`Collection.ts` lines 55-59): empty the backing
array in place. -/
def Collection.clear {κ : Type} (cs : CollectionState κ) : CollectionState κ :=
  { cs with models := [] }

/-- `this.last()?.setPhantom(false)` (`Collection.ts` line 192): mark the
last model non-phantom; no-op when the collection is empty. -/
def setLastNonPhantom {κ : Type} (cs : CollectionState κ) : CollectionState κ :=
  match cs.models.getLast? with
  | none => cs
  | some m =>
    { cs with models := cs.models.dropLast
        ++ [{ m with st := { m.st with isPhantom := false } }] }

/-- The batch part of the adapter contract (`DataProxy.ts`):
`query(collection, params)` resolves with a sequence of plain data
records, or rejects. -/
structure CollectionProxy (ε κ : Type) where
  query : CollectionState κ → PropsObj → Except ε (List PropsObj)

/-- `Collection.query(queryParams?, opts?)` (`Collection.ts` lines
183-195): adapter query with merged params; unless `opts.append` is
explicitly true, clear first; push each returned record in order and mark
the newly appended model non-phantom. `app` is `opts?.append` (`none`
when `opts` is absent or has no `append` entry). -/
def Collection.query {ε κ : Type} (classOf : κ → ModelClass) (dp : CollectionProxy ε κ)
    (cs : CollectionState κ) (qp : Option PropsObj) (app : Option Bool) :
    Except ε (CollectionState κ) :=
  match dp.query cs (mergeParams cs.queryParams qp) with
  | .error e => .error e
  | .ok res =>
    let cs1 := if app ≠ some true then Collection.clear cs else cs
    .ok (res.foldl (fun c item => setLastNonPhantom (Collection.push classOf c (.pdata item))) cs1)

/-- The model a `query()` result record becomes: constructed from the
record as `push` does, then marked non-phantom. -/
def queriedModel {κ : Type} (classOf : κ → ModelClass) (k : κ) (d : PropsObj) : MInst κ :=
  ⟨k, { Model.set (classOf k).muts (newModel (classOf k)) d with isPhantom := false }⟩

/-- A push argument is bound to class tag `k`: every model instance inside
it (at any array nesting depth) has runtime class `k`. Plain data objects
are always bound (they are constructed from the bound class). -/
inductive ElBound {κ : Type} (k : κ) : PushEl κ → Prop where
  | minst : ∀ m : MInst κ, m.cls = k → ElBound k (.minst m)
  | pdata : ∀ d : PropsObj, ElBound k (.pdata d)
  | parr : ∀ l : List (PushEl κ), (∀ e ∈ l, ElBound k e) → ElBound k (.parr l)

/-- Every element of the backing array is an instance of the bound model
class. -/
def AllBound {κ : Type} (cs : CollectionState κ) : Prop :=
  ∀ m ∈ cs.models, m.cls = cs.modelCls

/-- One collection operation of the kind claim C9 quantifies over. -/
inductive CollOp (ε κ : Type) where
  | push (el : PushEl κ)
  | query (dp : CollectionProxy ε κ) (qp : Option PropsObj) (app : Option Bool)

/-- Run a sequence of push/query operations; a query failure aborts the
sequence (the rejection propagates to the caller). -/
def runOps {ε κ : Type} (classOf : κ → ModelClass) :
    CollectionState κ → List (CollOp ε κ) → Except ε (CollectionState κ)
  | cs, [] => .ok cs
  | cs, (.push el) :: rest => runOps classOf (Collection.push classOf cs el) rest
  | cs, (.query dp qp app) :: rest =>
    match Collection.query classOf dp cs qp app with
    | .error e => .error e
    | .ok cs2 => runOps classOf cs2 rest

/-- Example subtype declaration mirroring the repository's test model. -/
def exClass : ModelClass :=
  { name := "TestModel",
    defaults := [("id", .vNull), ("name", .vStr "leer"), ("upName", .vStr "leer"),
      ("alwaysPlusOne", .vInt 0)],
    muts := exMuts }

/-- Example class-tag resolution: every tag names `exClass`. -/
def exClassOf : String → ModelClass := fun _ => exClass

/-- Example collection bound to "TestModel", holding one model. -/
def exColl : CollectionState String :=
  { modelCls := "TestModel", models := [⟨"TestModel", exSt⟩], queryParams := [] }

/-- Example batch adapter returning two records. -/
def exCollProxy : CollectionProxy Unit String :=
  { query := fun _ _ => .ok [[("id", .vInt 1)], [("id", .vInt 2)]] }

/-- The collection state reached from `exColl` by a data push followed by
a replacing `query()` through `exCollProxy`. -/
def exQueriedColl : CollectionState String :=
  { modelCls := "TestModel",
    models := [queriedModel exClassOf "TestModel" [("id", .vInt 1)],
      queriedModel exClassOf "TestModel" [("id", .vInt 2)]],
    queryParams := [] }

/-- Invariant relating a model state to the committed state `st0` it was
reached from by property writes: every dirty-snapshot entry holds the
committed value of its property, unsnapshotted properties still hold their
committed value, and snapshot keys are distinct. -/
def DirtyInv (st0 st : ModelState) : Prop :=
  (∀ p x, dlookup st.dirtyProps p = some x → x = getProp st0.props p)
  ∧ (∀ p, dlookup st.dirtyProps p = none → getProp st.props p = getProp st0.props p)
  ∧ (st.dirtyProps.map Prod.fst).Nodup

/-! ## Basic lemmas about the object model -/

theorem dlookup_nil (k : String) : dlookup ([] : PropsObj) k = none := rfl

theorem dlookup_cons (a : String × Val) (ps : PropsObj) (k : String) :
    dlookup (a :: ps) k = if a.1 = k then some a.2 else dlookup ps k := by
  by_cases h : a.1 = k <;> simp [dlookup, List.find?_cons, h]

theorem dlookup_append_of_some {ps : PropsObj} {k : String} {v : Val}
    (h : dlookup ps k = some v) (qs : PropsObj) : dlookup (ps ++ qs) k = some v := by
  induction ps with
  | nil => simp [dlookup_nil] at h
  | cons a ps ih =>
    rw [List.cons_append, dlookup_cons] at *
    by_cases ha : a.1 = k <;> simp [ha] at h ⊢
    · exact h
    · exact ih h

theorem hasKey_false_iff (ps : PropsObj) (k : String) :
    hasKey ps k = false ↔ dlookup ps k = none := by
  induction ps with
  | nil => simp [hasKey, dlookup_nil]
  | cons a ps ih =>
    rw [dlookup_cons]
    by_cases ha : a.1 = k <;> simp [hasKey, ha] at ih ⊢
    exact ih

theorem hasKey_true_iff (ps : PropsObj) (k : String) :
    hasKey ps k = true ↔ dlookup ps k ≠ none := by
  have h := hasKey_false_iff ps k
  cases hk : hasKey ps k <;> simp [hk] at h ⊢ <;> exact h

theorem dlookup_append (ps qs : PropsObj) (k : String) :
    dlookup (ps ++ qs) k = (dlookup ps k).orElse (fun _ => dlookup qs k) := by
  induction ps with
  | nil => simp [dlookup_nil]
  | cons a ps ih =>
    rw [List.cons_append, dlookup_cons, dlookup_cons]
    by_cases ha : a.1 = k <;> simp [ha, ih]

theorem dlookup_mapUpd_self {ps : PropsObj} {k : String} (v : Val)
    (h : dlookup ps k ≠ none) : dlookup (ps.map (updEntry k v)) k = some v := by
  induction ps with
  | nil => simp [dlookup_nil] at h
  | cons a ps ih =>
    rw [dlookup_cons] at h
    by_cases ha : a.1 = k
    · simp [dlookup_cons, updEntry, ha]
    · rw [List.map_cons, dlookup_cons]
      simp only [ha, if_false] at h
      simp [updEntry, ha, ih h]

theorem dlookup_mapUpd_ne {ps : PropsObj} {k k' : String} (v : Val) (h : k' ≠ k) :
    dlookup (ps.map (updEntry k v)) k' = dlookup ps k' := by
  induction ps with
  | nil => simp
  | cons a ps ih =>
    rw [List.map_cons, dlookup_cons, dlookup_cons]
    by_cases ha : a.1 = k
    · have h1 : ((updEntry k v a).1 = k') = False := by
        simp [updEntry, ha]
        exact fun hkk => h hkk.symm
      have h2 : (a.1 = k') = False := by
        simp [ha]
        exact fun hkk => h hkk.symm
      simp [h1, h2, ih]
    · have h1 : updEntry k v a = a := by simp [updEntry, ha]
      rw [h1]
      by_cases ha' : a.1 = k' <;> simp [ha', ih]

theorem dlookup_setProp_self (ps : PropsObj) (k : String) (v : Val) :
    dlookup (setProp ps k v) k = some v := by
  unfold setProp
  by_cases h : hasKey ps k
  · rw [if_pos h]
    exact dlookup_mapUpd_self v ((hasKey_true_iff ps k).mp h)
  · rw [if_neg h, dlookup_append]
    rw [(hasKey_false_iff ps k).mp (by simpa using h)]
    simp [dlookup_cons]

theorem dlookup_setProp_ne (ps : PropsObj) (k k' : String) (v : Val) (h : k' ≠ k) :
    dlookup (setProp ps k v) k' = dlookup ps k' := by
  unfold setProp
  by_cases hk : hasKey ps k
  · rw [if_pos hk]
    exact dlookup_mapUpd_ne v h
  · rw [if_neg hk, dlookup_append]
    cases hl : dlookup ps k' <;> simp [dlookup_cons, dlookup_nil, h, Ne.symm h]

theorem getProp_setProp_self (ps : PropsObj) (k : String) (v : Val) :
    getProp (setProp ps k v) k = v := by
  simp [getProp, dlookup_setProp_self]

theorem getProp_setProp_ne (ps : PropsObj) (k k' : String) (v : Val) (h : k' ≠ k) :
    getProp (setProp ps k v) k' = getProp ps k' := by
  simp [getProp, dlookup_setProp_ne ps k k' v h]

/-! ## Lemmas about the interception layer -/

theorem proxySetProp_dirty_of_hasKey (muts : Mutations) (st : ModelState) (p : String) (v : Val)
    (h : hasKey st.dirtyProps p = true) :
    (proxySetProp muts st p v).dirtyProps = st.dirtyProps := by
  simp [proxySetProp, h]

theorem proxySetProp_dirty_of_not_hasKey (muts : Mutations) (st : ModelState) (p : String)
    (v : Val) (h : hasKey st.dirtyProps p = false) :
    (proxySetProp muts st p v).dirtyProps = st.dirtyProps ++ [(p, getProp st.props p)] := by
  simp [proxySetProp, h]

theorem proxySetProp_props (muts : Mutations) (st : ModelState) (p : String) (v : Val) :
    (proxySetProp muts st p v).props
      = setProp st.props p (if st.rollbackMode then v else applyMut muts p v) := by
  by_cases hk : hasKey st.dirtyProps p <;> simp [proxySetProp, hk]

theorem proxySetProp_rollbackMode (muts : Mutations) (st : ModelState) (p : String) (v : Val) :
    (proxySetProp muts st p v).rollbackMode = st.rollbackMode := by
  by_cases hk : hasKey st.dirtyProps p <;> simp [proxySetProp, hk]

theorem proxySetProp_isPhantom (muts : Mutations) (st : ModelState) (p : String) (v : Val) :
    (proxySetProp muts st p v).isPhantom = st.isPhantom := by
  by_cases hk : hasKey st.dirtyProps p <;> simp [proxySetProp, hk]

theorem proxySetProp_isDestroyed (muts : Mutations) (st : ModelState) (p : String) (v : Val) :
    (proxySetProp muts st p v).isDestroyed = st.isDestroyed := by
  by_cases hk : hasKey st.dirtyProps p <;> simp [proxySetProp, hk]

theorem proxySetProp_queryParams (muts : Mutations) (st : ModelState) (p : String) (v : Val) :
    (proxySetProp muts st p v).queryParams = st.queryParams := by
  by_cases hk : hasKey st.dirtyProps p <;> simp [proxySetProp, hk]

/-- A dirty-snapshot entry survives any single later write. -/
theorem dirty_entry_mono (muts : Mutations) (s : ModelState) (q p : String) (x v : Val)
    (h : dlookup s.dirtyProps q = some x) :
    dlookup (proxySetProp muts s p v).dirtyProps q = some x := by
  by_cases hk : hasKey s.dirtyProps p
  · rw [proxySetProp_dirty_of_hasKey muts s p v hk]
    exact h
  · rw [proxySetProp_dirty_of_not_hasKey muts s p v (by simpa using hk)]
    exact dlookup_append_of_some h _

/-- A dirty-snapshot entry survives any sequence of later writes. -/
theorem dirty_entry_mono_fold (muts : Mutations) (ws : List (String × Val)) (s : ModelState)
    (q : String) (x : Val) (h : dlookup s.dirtyProps q = some x) :
    dlookup ((ws.foldl (fun t kv => proxySetProp muts t kv.1 kv.2) s).dirtyProps) q = some x := by
  induction ws generalizing s with
  | nil => exact h
  | cons a ws ih => exact ih _ (dirty_entry_mono muts s q a.1 x a.2 h)

theorem mem_hasKey {ps : PropsObj} {kv : String × Val} (h : kv ∈ ps) :
    hasKey ps kv.1 = true := by
  simp only [hasKey, List.any_eq_true]
  exact ⟨kv, h, by simp⟩

theorem dlookup_some_mem {ps : PropsObj} {p : String} {v : Val}
    (h : dlookup ps p = some v) : (p, v) ∈ ps := by
  induction ps with
  | nil => simp [dlookup_nil] at h
  | cons a ps ih =>
    rw [dlookup_cons] at h
    by_cases ha : a.1 = p
    · simp only [ha, if_true, Option.some.injEq] at h
      have hav : (p, v) = a := by
        rcases a with ⟨a1, a2⟩
        simp_all
      rw [hav]
      exact List.mem_cons_self a ps
    · simp only [ha, if_false] at h
      exact List.mem_cons_of_mem a (ih h)

theorem foldl_setProp_getProp_not_mem (l : PropsObj) (ps : PropsObj) (p : String)
    (h : ∀ kv ∈ l, kv.1 ≠ p) :
    getProp (l.foldl (fun a kv => setProp a kv.1 kv.2) ps) p = getProp ps p := by
  induction l generalizing ps with
  | nil => rfl
  | cons a l ih =>
    rw [List.foldl_cons, ih _ (fun kv hm => h kv (List.mem_cons_of_mem a hm))]
    exact getProp_setProp_ne ps a.1 p a.2 (Ne.symm (h a (List.mem_cons_self a l)))

theorem foldl_setProp_getProp_mem {l : PropsObj} (ps : PropsObj) {p : String} {v : Val}
    (hnd : (l.map Prod.fst).Nodup) (hmem : (p, v) ∈ l) :
    getProp (l.foldl (fun a kv => setProp a kv.1 kv.2) ps) p = v := by
  induction l generalizing ps with
  | nil => simp at hmem
  | cons a l ih =>
    rw [List.map_cons, List.nodup_cons] at hnd
    rw [List.foldl_cons]
    rcases List.mem_cons.mp hmem with heq | hmema
    · have ha1 : a.1 = p := by rw [← heq]
      have ha2 : a.2 = v := by rw [← heq]
      have hnot : ∀ kv ∈ l, kv.1 ≠ p := by
        intro kv hkv hkp
        apply hnd.1
        rw [ha1]
        exact hkp ▸ List.mem_map_of_mem Prod.fst hkv
      rw [foldl_setProp_getProp_not_mem l _ p hnot, ha1, ha2]
      exact getProp_setProp_self ps p v
    · exact ih (setProp ps a.1 a.2) hnd.2 hmema

/-- During rollback (rollback mode on, every written key already in the
dirty snapshot), the interception layer stores the raw values and changes
nothing else. -/
theorem rollback_fold (muts : Mutations) (l : PropsObj) (s : ModelState)
    (hrb : s.rollbackMode = true) (hkeys : ∀ kv ∈ l, hasKey s.dirtyProps kv.1 = true) :
    l.foldl (fun t kv => proxySetProp muts t kv.1 kv.2) s
      = { s with props := l.foldl (fun ps kv => setProp ps kv.1 kv.2) s.props } := by
  induction l generalizing s with
  | nil => simp
  | cons a l ih =>
    rw [List.foldl_cons, List.foldl_cons]
    have h1 : proxySetProp muts s a.1 a.2 = { s with props := setProp s.props a.1 a.2 } := by
      simp [proxySetProp, hkeys a (List.mem_cons_self a l), hrb]
    rw [h1, ih { s with props := setProp s.props a.1 a.2 } hrb
      (fun kv hm => hkeys kv (List.mem_cons_of_mem a hm))]

/-- `rollback()` writes the raw snapshot values back over the properties,
clears the snapshot and leaves rollback mode. -/
theorem rollback_eq (muts : Mutations) (st : ModelState) :
    Model.rollback muts st
      = { st with props := st.dirtyProps.foldl (fun ps kv => setProp ps kv.1 kv.2) st.props,
                  dirtyProps := [], rollbackMode := false } := by
  simp only [Model.rollback]
  rw [show ({ st with rollbackMode := true } : ModelState).dirtyProps = st.dirtyProps from rfl,
    rollback_fold muts st.dirtyProps { st with rollbackMode := true } rfl
      (fun kv hm => mem_hasKey hm)]

theorem dirtyInv_init (st0 : ModelState) (h0 : st0.dirtyProps = []) : DirtyInv st0 st0 := by
  refine ⟨fun p x hx => ?_, fun p _ => rfl, ?_⟩ <;> rw [h0] at *
  · simp [dlookup_nil] at hx
  · simp

theorem dirtyInv_step (muts : Mutations) (st0 st : ModelState) (q : String) (v : Val)
    (h : DirtyInv st0 st) : DirtyInv st0 (proxySetProp muts st q v) := by
  obtain ⟨h1, h2, h3⟩ := h
  by_cases hk : hasKey st.dirtyProps q
  · refine ⟨?_, ?_, ?_⟩
    · rw [proxySetProp_dirty_of_hasKey muts st q v hk]
      exact h1
    · intro p hp
      rw [proxySetProp_dirty_of_hasKey muts st q v hk] at hp
      have hpq : p ≠ q := by
        intro he
        exact ((hasKey_true_iff st.dirtyProps q).mp hk) (he ▸ hp)
      rw [proxySetProp_props, getProp_setProp_ne st.props q p _ hpq]
      exact h2 p hp
    · rw [proxySetProp_dirty_of_hasKey muts st q v hk]
      exact h3
  · have hk' : hasKey st.dirtyProps q = false := by simpa using hk
    have hnone : dlookup st.dirtyProps q = none := (hasKey_false_iff st.dirtyProps q).mp hk'
    have hd : (proxySetProp muts st q v).dirtyProps
        = st.dirtyProps ++ [(q, getProp st.props q)] :=
      proxySetProp_dirty_of_not_hasKey muts st q v hk'
    have hqkeys : q ∉ st.dirtyProps.map Prod.fst := by
      intro hmem
      rcases List.mem_map.mp hmem with ⟨kv, hkv, hfst⟩
      exact (hasKey_true_iff st.dirtyProps q).mp (hfst ▸ mem_hasKey hkv) hnone
    refine ⟨?_, ?_, ?_⟩
    · intro p x hx
      rw [hd, dlookup_append] at hx
      cases hpre : dlookup st.dirtyProps p with
      | some y =>
        simp [hpre] at hx
        exact hx ▸ h1 p y hpre
      | none =>
        simp [hpre, dlookup_cons, dlookup_nil] at hx
        obtain ⟨hqp, hxv⟩ := hx
        rw [← hxv, ← hqp]
        exact h2 q hnone
    · intro p hp
      rw [hd, dlookup_append] at hp
      cases hpre : dlookup st.dirtyProps p with
      | some y => simp [hpre] at hp
      | none =>
        simp [hpre, dlookup_cons, dlookup_nil] at hp
        have hpq : p ≠ q := by
          intro he
          rw [he] at hp
          simp at hp
        rw [proxySetProp_props, getProp_setProp_ne st.props q p _ hpq]
        exact h2 p hpre
    · rw [hd, List.map_append]
      refine List.Nodup.append h3 (by simp) ?_
      intro a ha hb
      simp only [List.map_cons, List.map_nil, List.mem_singleton] at hb
      exact hqkeys (hb ▸ ha)

theorem dirtyInv_fold (muts : Mutations) (ws : List (String × Val)) (st0 st : ModelState)
    (h : DirtyInv st0 st) : DirtyInv st0 (writeSeq muts ws st) := by
  induction ws generalizing st with
  | nil => exact h
  | cons a ws ih => exact ih _ (dirtyInv_step muts st0 st a.1 a.2 h)

/-! ## Claim theorems -/

/-- C1: For every model and every write to a non-internal property `p`: if
the dirty snapshot has no entry for `p`, the write records `p`'s pre-write
value into the snapshot; any sequence of later writes before the next
commit leaves that captured entry unchanged (capture-once), even though the
stored value changes again on a second write to `p`. -/
theorem c1_dirty_capture_once (muts : Mutations) (st : ModelState) (p : String) (v : Val)
    (ws : List (String × Val)) (_hp : p ∉ internalModelProps)
    (h : dlookup st.dirtyProps p = none) :
    dlookup (proxySetProp muts st p v).dirtyProps p = some (getProp st.props p)
    ∧ dlookup ((ws.foldl (fun t kv => proxySetProp muts t kv.1 kv.2)
        (proxySetProp muts st p v)).dirtyProps) p = some (getProp st.props p)
    ∧ (st.rollbackMode = false → ∀ w,
        getProp (proxySetProp muts (proxySetProp muts st p v) p w).props p = applyMut muts p w) := by
  have hcap : dlookup (proxySetProp muts st p v).dirtyProps p = some (getProp st.props p) := by
    rw [proxySetProp_dirty_of_not_hasKey muts st p v ((hasKey_false_iff st.dirtyProps p).mpr h)]
    rw [dlookup_append, h]
    simp [dlookup_cons]
  refine ⟨hcap, dirty_entry_mono_fold muts ws _ p _ hcap, fun hrb w => ?_⟩
  rw [proxySetProp_props, proxySetProp_rollbackMode, hrb]
  simp [getProp_setProp_self]

/-- C2: For every model, after any sequence of property writes since the
last commit, `rollback()` restores every property named in the dirty
snapshot to its captured pre-write (committed) value without re-applying
mutation functions, clears the snapshot, and leaves `isDirty()` false. -/
theorem c2_rollback_restores (muts : Mutations) (st0 : ModelState) (ws : List (String × Val))
    (h0 : st0.dirtyProps = []) :
    (∀ p x, dlookup (writeSeq muts ws st0).dirtyProps p = some x →
        getProp (Model.rollback muts (writeSeq muts ws st0)).props p = x
        ∧ x = getProp st0.props p)
    ∧ (Model.rollback muts (writeSeq muts ws st0)).dirtyProps = []
    ∧ Model.isDirty (Model.rollback muts (writeSeq muts ws st0)) = false
    ∧ (Model.rollback muts (writeSeq muts ws st0)).rollbackMode = false := by
  have hinv : DirtyInv st0 (writeSeq muts ws st0) :=
    dirtyInv_fold muts ws st0 st0 (dirtyInv_init st0 h0)
  obtain ⟨h1, _h2, h3⟩ := hinv
  rw [rollback_eq muts (writeSeq muts ws st0)]
  refine ⟨fun p x hx => ?_, rfl, rfl, rfl⟩
  exact ⟨foldl_setProp_getProp_mem _ h3 (dlookup_some_mem hx), h1 p x hx⟩

/-- Witness for C2 at a concrete model state and write sequence. -/
theorem c2_rollback_restores_witness :
    (∀ p x, dlookup (writeSeq exMuts [("a", .vInt 7), ("upName", .vStr "x")] exSt).dirtyProps p
          = some x →
        getProp (Model.rollback exMuts
            (writeSeq exMuts [("a", .vInt 7), ("upName", .vStr "x")] exSt)).props p = x
        ∧ x = getProp exSt.props p)
    ∧ (Model.rollback exMuts
        (writeSeq exMuts [("a", .vInt 7), ("upName", .vStr "x")] exSt)).dirtyProps = []
    ∧ Model.isDirty (Model.rollback exMuts
        (writeSeq exMuts [("a", .vInt 7), ("upName", .vStr "x")] exSt)) = false
    ∧ (Model.rollback exMuts
        (writeSeq exMuts [("a", .vInt 7), ("upName", .vStr "x")] exSt)).rollbackMode = false :=
  c2_rollback_restores exMuts exSt [("a", .vInt 7), ("upName", .vStr "x")] rfl

/-- Witness for C1 at a concrete model state. -/
theorem c1_dirty_capture_once_witness :
    dlookup (proxySetProp exMuts exSt "b" (.vInt 2)).dirtyProps "b" = some (getProp exSt.props "b")
    ∧ dlookup (([(("b" : String), Val.vInt 3)].foldl
        (fun t kv => proxySetProp exMuts t kv.1 kv.2)
        (proxySetProp exMuts exSt "b" (.vInt 2))).dirtyProps) "b"
        = some (getProp exSt.props "b")
    ∧ (exSt.rollbackMode = false → ∀ w,
        getProp (proxySetProp exMuts (proxySetProp exMuts exSt "b" (.vInt 2)) "b" w).props "b"
          = applyMut exMuts "b" w) :=
  c1_dirty_capture_once exMuts exSt "b" (.vInt 2) [("b", .vInt 3)] (by decide) rfl

theorem proxySetProp_dirty_ne_nil (muts : Mutations) (s : ModelState) (p : String) (v : Val)
    (h : s.dirtyProps ≠ []) : (proxySetProp muts s p v).dirtyProps ≠ [] := by
  by_cases hk : hasKey s.dirtyProps p
  · rw [proxySetProp_dirty_of_hasKey muts s p v hk]
    exact h
  · rw [proxySetProp_dirty_of_not_hasKey muts s p v (by simpa using hk)]
    simp

theorem writeSeq_dirty_ne_nil (muts : Mutations) (ws : List (String × Val)) (s : ModelState)
    (h : s.dirtyProps ≠ []) : (writeSeq muts ws s).dirtyProps ≠ [] := by
  induction ws generalizing s with
  | nil => exact h
  | cons a ws ih => exact ih _ (proxySetProp_dirty_ne_nil muts s a.1 a.2 h)

theorem isDirty_iff_ne_nil (st : ModelState) :
    Model.isDirty st = true ↔ st.dirtyProps ≠ [] := by
  simp [Model.isDirty, List.length_pos]

/-- C3 counterexample: the claim "after `commit(x)` followed by `set(x)`
with the same values, `isDirty()` is false" fails on the code. Concretely:
commit `{a: 1}` on a fresh model, then set `{a: 1}` again — the stored
value is unchanged, yet the model is dirty, because the snapshot capture
runs unconditionally on the first write after a commit. -/
theorem c3_counterexample :
    Model.isDirty (Model.commit exMuts exSt0 (some [("a", Val.vInt 1)])) = false
    ∧ getProp (Model.commit exMuts exSt0 (some [("a", Val.vInt 1)])).props "a" = Val.vInt 1
    ∧ Model.isDirty (Model.set exMuts (Model.commit exMuts exSt0 (some [("a", Val.vInt 1)]))
        [("a", Val.vInt 1)]) = true
    ∧ getProp (Model.set exMuts (Model.commit exMuts exSt0 (some [("a", Val.vInt 1)]))
        [("a", Val.vInt 1)]).props "a" = Val.vInt 1 :=
  ⟨rfl, rfl, rfl, rfl⟩

/-- A nonempty bulk `set` on a just-committed model always marks it
dirty, whatever values are written. -/
theorem set_nonempty_marks_dirty (muts : Mutations) (st : ModelState) (data : PropsObj)
    (h0 : st.dirtyProps = []) (hne : data ≠ []) :
    Model.isDirty (Model.set muts st data) = true := by
  cases data with
  | nil => exact absurd rfl hne
  | cons kv rest =>
    have h1 : (proxySetProp muts st kv.1 kv.2).dirtyProps ≠ [] := by
      rw [proxySetProp_dirty_of_not_hasKey muts st kv.1 kv.2 (by rw [h0]; rfl)]
      simp
    have h2 : (writeSeq muts rest (proxySetProp muts st kv.1 kv.2)).dirtyProps ≠ [] :=
      writeSeq_dirty_ne_nil muts rest _ h1
    exact (isDirty_iff_ne_nil _).mpr h2

/-- C3 (amended): after `commit(x)`, re-writing any values via `set` —
including the model's own current values — leaves `isDirty()` true whenever
at least one property is written: the snapshot-before-write capture runs
unconditionally on the first write after a commit, with no value-equality
suppression. -/
theorem c3_amended_rewrite_marks_dirty (muts : Mutations) (st : ModelState) (data : PropsObj)
    (h0 : st.dirtyProps = []) (hne : data ≠ []) :
    Model.isDirty (Model.set muts st data) = true :=
  set_nonempty_marks_dirty muts st data h0 hne

/-- Witness for the amended C3 at a concrete model state. -/
theorem c3_amended_rewrite_marks_dirty_witness :
    Model.isDirty (Model.set exMuts exSt [("a", Val.vInt 1)]) = true :=
  c3_amended_rewrite_marks_dirty exMuts exSt [("a", Val.vInt 1)] rfl (by simp)

theorem commit_isDirty_false (muts : Mutations) (st : ModelState) (data : Option PropsObj) :
    Model.isDirty (Model.commit muts st data) = false := by
  cases data <;> simp [Model.commit, Model.isDirty]

/-- C4 counterexample: the claim "immediately after any successful
`destroy()` the dirty snapshot is empty, regardless of whether the adapter
returned a patch or null" fails on the code. Concretely: a persisted dirty
model destroyed through an adapter whose delete resolves with `null`
succeeds, yet stays dirty — `commit()` runs only inside the
`if (res)` branch of `Model.destroy`. -/
theorem c4_counterexample :
    Model.isDirty exDirtySt = true
    ∧ Model.destroy exMuts (DummyDataProxy Unit) exDirtySt none
        = (.ok { exDirtySt with isPhantom := true, isDestroyed := true }, [.delete])
    ∧ (Model.destroy exMuts (DummyDataProxy Unit) exDirtySt none).1.map Model.isDirty
        = .ok true :=
  ⟨rfl, rfl, rfl⟩

/-- C4 (amended): for a persisted model, a successful `destroy()` applies
the returned data patch and commits only when the adapter returned a patch
(then `isDirty()` is false afterwards); when the adapter returns `null`,
the dirty snapshot is left untouched (`isDirty()` is unchanged) and only
the lifecycle flags are set. -/
theorem c4_destroy_commits_only_with_patch {ε : Type} (muts : Mutations) (dp : DataProxy ε)
    (st : ModelState) (qp : Option PropsObj) (hph : st.isPhantom = false) :
    (∀ r, dp.delete st (mergeParams st.queryParams qp) = .ok (some r) →
        Model.destroy muts dp st qp
          = (.ok { Model.commit muts (Model.set muts st r) none with
                   isPhantom := true, isDestroyed := true }, [.delete])
        ∧ (Model.destroy muts dp st qp).1.map Model.isDirty = .ok false)
    ∧ (dp.delete st (mergeParams st.queryParams qp) = .ok none →
        Model.destroy muts dp st qp
          = (.ok { st with isPhantom := true, isDestroyed := true }, [.delete])
        ∧ (Model.destroy muts dp st qp).1.map Model.isDirty = .ok (Model.isDirty st)) := by
  constructor
  · intro r hr
    have hd : Model.destroy muts dp st qp
        = (.ok { Model.commit muts (Model.set muts st r) none with
                 isPhantom := true, isDestroyed := true }, [.delete]) := by
      simp [Model.destroy, hph, hr]
    refine ⟨hd, ?_⟩
    rw [hd]
    simp only [Except.map]
    rw [show Model.isDirty { Model.commit muts (Model.set muts st r) none with
        isPhantom := true, isDestroyed := true }
      = Model.isDirty (Model.commit muts (Model.set muts st r) none) from rfl]
    rw [commit_isDirty_false]
  · intro hr
    have hd : Model.destroy muts dp st qp
        = (.ok { st with isPhantom := true, isDestroyed := true }, [.delete]) := by
      simp [Model.destroy, hph, hr]
    refine ⟨hd, ?_⟩
    rw [hd]
    rfl

/-- Witness for the amended C4: delete resolving with a patch commits. -/
theorem c4_destroy_commits_only_with_patch_witness :
    Model.destroy exMuts exPatchProxy exDirtySt none
      = (.ok { Model.commit exMuts (Model.set exMuts exDirtySt [("id", Val.vInt 42)]) none with
               isPhantom := true, isDestroyed := true }, [.delete])
    ∧ (Model.destroy exMuts exPatchProxy exDirtySt none).1.map Model.isDirty = .ok false :=
  (c4_destroy_commits_only_with_patch exMuts exPatchProxy exDirtySt none rfl).1
    [("id", Val.vInt 42)] rfl

/-- C5: any adapter failure inside `load()`, `save()` or `destroy()` is
propagated unchanged to the caller; none of the statements after the
`await` run, so no successor state is produced — the caller still holds
the instance with its pre-call phantom flag, destroyed flag and dirty
snapshot — and commit / the lifecycle transition never run for that
call. -/
theorem c5_adapter_failure_propagates {ε : Type} (muts : Mutations) (dp : DataProxy ε)
    (st : ModelState) (qp : Option PropsObj) (e : ε) :
    (dp.fetch st (mergeParams st.queryParams qp) = .error e →
        Model.load muts dp st qp = (.error e, [.fetch]))
    ∧ (st.isPhantom = true → dp.create st (mergeParams st.queryParams qp) = .error e →
        Model.save muts dp st qp = (.error e, [.create]))
    ∧ (st.isPhantom = false → dp.update st (mergeParams st.queryParams qp) = .error e →
        Model.save muts dp st qp = (.error e, [.update]))
    ∧ (st.isPhantom = false → dp.delete st (mergeParams st.queryParams qp) = .error e →
        Model.destroy muts dp st qp = (.error e, [.delete])) := by
  refine ⟨fun h => ?_, fun hph h => ?_, fun hph h => ?_, fun hph h => ?_⟩
  · simp [Model.load, h]
  · simp [Model.save, hph, h]
  · simp [Model.save, hph, h]
  · simp [Model.destroy, hph, h]

/-- Witness for C5 on a persisted model with a failing adapter. -/
theorem c5_adapter_failure_propagates_witness :
    Model.load exMuts exFailProxy exDirtySt none = (.error "fail", [.fetch])
    ∧ Model.save exMuts exFailProxy exDirtySt none = (.error "fail", [.update])
    ∧ Model.destroy exMuts exFailProxy exDirtySt none = (.error "fail", [.delete]) :=
  ⟨(c5_adapter_failure_propagates exMuts exFailProxy exDirtySt none "fail").1 rfl,
   (c5_adapter_failure_propagates exMuts exFailProxy exDirtySt none "fail").2.2.1 rfl rfl,
   (c5_adapter_failure_propagates exMuts exFailProxy exDirtySt none "fail").2.2.2 rfl rfl⟩

/-- C6: `save()` calls the adapter's create exactly once and never update
when the model is phantom, and update exactly once and never create when
it is persisted; in either case, on success `isDirty()` is false and
`isPhantom()` is false. -/
theorem c6_save_create_xor_update {ε : Type} (muts : Mutations) (dp : DataProxy ε)
    (st : ModelState) (qp : Option PropsObj) :
    (st.isPhantom = true → (Model.save muts dp st qp).2 = [.create])
    ∧ (st.isPhantom = false → (Model.save muts dp st qp).2 = [.update])
    ∧ (∀ st', (Model.save muts dp st qp).1 = .ok st' →
        Model.isDirty st' = false ∧ st'.isPhantom = false) := by
  refine ⟨fun hph => ?_, fun hph => ?_, fun st' h => ?_⟩
  · cases hc : dp.create st (mergeParams st.queryParams qp) <;>
      simp [Model.save, hph, hc]
  · cases hc : dp.update st (mergeParams st.queryParams qp) <;>
      simp [Model.save, hph, hc]
  · cases hph : st.isPhantom <;>
      [cases hc : dp.update st (mergeParams st.queryParams qp);
       cases hc : dp.create st (mergeParams st.queryParams qp)] <;>
      simp [Model.save, hph, hc] at h <;>
      rw [← h] <;>
      exact ⟨rfl, rfl⟩

/-- Witness for C6 on a phantom model whose adapter returns a patch. -/
theorem c6_save_create_xor_update_witness :
    (Model.save exMuts exPatchProxy exSt none).2 = [AdapterCall.create]
    ∧ Model.isDirty { Model.commit exMuts (Model.set exMuts exSt [("id", Val.vInt 42)]) none with
        isPhantom := false, isDestroyed := false } = false
    ∧ ({ Model.commit exMuts (Model.set exMuts exSt [("id", Val.vInt 42)]) none with
        isPhantom := false, isDestroyed := false } : ModelState).isPhantom = false :=
  ⟨(c6_save_create_xor_update exMuts exPatchProxy exSt none).1 rfl,
   ((c6_save_create_xor_update exMuts exPatchProxy exSt none).2.2 _ rfl).1,
   ((c6_save_create_xor_update exMuts exPatchProxy exSt none).2.2 _ rfl).2⟩

/-- C7: `destroy()` on a phantom model performs no adapter call and
changes no state; on a persisted model it calls the adapter's delete
exactly once and on success yields `isPhantom()` true and `isDestroyed()`
true; a subsequent `save()` from that state uses the create path (exactly
one create call, never update) and on success yields `isDestroyed()`
false. -/
theorem c7_destroy_phantom_lifecycle {ε ε2 : Type} (muts : Mutations) (dp : DataProxy ε)
    (st : ModelState) (qp : Option PropsObj) :
    (st.isPhantom = true → Model.destroy muts dp st qp = (.ok st, []))
    ∧ (st.isPhantom = false →
        (Model.destroy muts dp st qp).2 = [.delete]
        ∧ ∀ st', (Model.destroy muts dp st qp).1 = .ok st' →
            st'.isPhantom = true ∧ st'.isDestroyed = true
            ∧ ∀ (dp2 : DataProxy ε2) (qp2 : Option PropsObj),
                (Model.save muts dp2 st' qp2).2 = [.create]
                ∧ ∀ st'', (Model.save muts dp2 st' qp2).1 = .ok st'' →
                    st''.isDestroyed = false) := by
  constructor
  · intro hph
    simp [Model.destroy, hph]
  · intro hph
    constructor
    · cases hc : dp.delete st (mergeParams st.queryParams qp) <;>
        simp [Model.destroy, hph, hc]
    · intro st' h
      cases hc : dp.delete st (mergeParams st.queryParams qp) with
      | error e => simp [Model.destroy, hph, hc] at h
      | ok res =>
        have hflags : st'.isPhantom = true ∧ st'.isDestroyed = true := by
          cases res <;> simp [Model.destroy, hph, hc] at h <;> rw [← h] <;> exact ⟨rfl, rfl⟩
        refine ⟨hflags.1, hflags.2, fun dp2 qp2 => ⟨?_, fun st'' h2 => ?_⟩⟩
        · cases hc2 : dp2.create st' (mergeParams st'.queryParams qp2) <;>
            simp [Model.save, hflags.1, hc2]
        · cases hc2 : dp2.create st' (mergeParams st'.queryParams qp2) with
          | error e2 => simp [Model.save, hflags.1, hc2] at h2
          | ok res2 =>
            cases res2 <;> simp [Model.save, hflags.1, hc2] at h2 <;> rw [← h2]

/-- Witness for C7: destroy of a persisted dirty model through a
patch-returning adapter, then save from the destroyed state. -/
theorem c7_destroy_phantom_lifecycle_witness :
    (Model.destroy exMuts exPatchProxy exDirtySt none).2 = [AdapterCall.delete]
    ∧ ({ Model.commit exMuts (Model.set exMuts exDirtySt [("id", Val.vInt 42)]) none with
        isPhantom := true, isDestroyed := true } : ModelState).isPhantom = true
    ∧ ({ Model.commit exMuts (Model.set exMuts exDirtySt [("id", Val.vInt 42)]) none with
        isPhantom := true, isDestroyed := true } : ModelState).isDestroyed = true
    ∧ (Model.save exMuts exPatchProxy
        { Model.commit exMuts (Model.set exMuts exDirtySt [("id", Val.vInt 42)]) none with
          isPhantom := true, isDestroyed := true } none).2 = [AdapterCall.create] := by
  have h := (@c7_destroy_phantom_lifecycle Unit Unit exMuts exPatchProxy exDirtySt none).2 rfl
  exact ⟨h.1, (h.2 _ rfl).1, (h.2 _ rfl).2.1, ((h.2 _ rfl).2.2 exPatchProxy none).1⟩

/-! ## Collection lemmas and claims -/

theorem setLastNonPhantom_append {κ : Type} (cs : CollectionState κ) (ms : List (MInst κ))
    (m : MInst κ) (h : cs.models = ms ++ [m]) :
    setLastNonPhantom cs
      = { cs with models := ms ++ [{ m with st := { m.st with isPhantom := false } }] } := by
  simp [setLastNonPhantom, h, List.getLast?_concat, List.dropLast_concat]

theorem query_fold {κ : Type} (classOf : κ → ModelClass) (recs : List PropsObj)
    (cs : CollectionState κ) :
    recs.foldl (fun c item => setLastNonPhantom (Collection.push classOf c (.pdata item))) cs
      = { cs with models := cs.models ++ recs.map (queriedModel classOf cs.modelCls) } := by
  induction recs generalizing cs with
  | nil => simp
  | cons d rest ih =>
    rw [List.foldl_cons]
    have hstep : setLastNonPhantom (Collection.push classOf cs (.pdata d))
        = { cs with models := cs.models ++ [queriedModel classOf cs.modelCls d] } := by
      rw [show Collection.push classOf cs (.pdata d)
          = { cs with models := cs.models
              ++ [⟨cs.modelCls, Model.set (classOf cs.modelCls).muts
                    (newModel (classOf cs.modelCls)) d⟩] } from rfl]
      rw [setLastNonPhantom_append _ cs.models _ rfl]
      simp [queriedModel]
    rw [hstep, ih]
    simp

/-- C8: `query()` with `append` not explicitly true first empties the
collection and then inserts one new model per adapter result record, in
result order, each newly inserted model marked non-phantom; `query()` with
`append: true` preserves the existing elements in place and appends the
new models at the end, in adapter-result order. -/
theorem c8_query_replace_or_append {ε κ : Type} (classOf : κ → ModelClass)
    (dp : CollectionProxy ε κ) (cs : CollectionState κ) (qp : Option PropsObj)
    (recs : List PropsObj) (h : dp.query cs (mergeParams cs.queryParams qp) = .ok recs) :
    (∀ app : Option Bool, app ≠ some true →
        Collection.query classOf dp cs qp app
          = .ok { cs with models := recs.map (queriedModel classOf cs.modelCls) })
    ∧ Collection.query classOf dp cs qp (some true)
        = .ok { cs with models := cs.models ++ recs.map (queriedModel classOf cs.modelCls) } := by
  constructor
  · intro app happ
    simp only [Collection.query, h]
    rw [if_pos happ, query_fold]
    rfl
  · simp only [Collection.query, h]
    rw [if_neg (by simp), query_fold]

/-- Witness for C8 on a concrete collection and adapter. -/
theorem c8_query_replace_or_append_witness :
    Collection.query exClassOf exCollProxy exColl none none
      = .ok { exColl with
          models := [[("id", Val.vInt 1)], [("id", Val.vInt 2)]].map
            (queriedModel exClassOf exColl.modelCls) }
    ∧ Collection.query exClassOf exCollProxy exColl none (some true)
      = .ok { exColl with
          models := exColl.models ++ [[("id", Val.vInt 1)], [("id", Val.vInt 2)]].map
            (queriedModel exClassOf exColl.modelCls) } :=
  ⟨(c8_query_replace_or_append exClassOf exCollProxy exColl none _ rfl).1 none (by simp),
   (c8_query_replace_or_append exClassOf exCollProxy exColl none _ rfl).2⟩

/-- `push` of a bound argument keeps the bound class and keeps every
element an instance of it. -/
theorem push_bound {κ : Type} (classOf : κ → ModelClass) {k : κ} {el : PushEl κ}
    (hb : ElBound k el) :
    ∀ cs : CollectionState κ, cs.modelCls = k → AllBound cs →
      (Collection.push classOf cs el).modelCls = cs.modelCls
      ∧ AllBound (Collection.push classOf cs el) := by
  induction hb with
  | minst m hm =>
    intro cs hk hall
    refine ⟨rfl, fun x hx => ?_⟩
    rw [show Collection.push classOf cs (.minst m)
        = { cs with models := cs.models ++ [m] } from rfl] at hx ⊢
    rcases List.mem_append.mp hx with h1 | h2
    · exact hall x h1
    · rw [List.mem_singleton] at h2
      rw [h2]
      show m.cls = cs.modelCls
      rw [hm, hk]
  | pdata d =>
    intro cs hk hall
    refine ⟨rfl, fun x hx => ?_⟩
    rw [show Collection.push classOf cs (.pdata d)
        = { cs with models := cs.models
            ++ [⟨cs.modelCls, Model.set (classOf cs.modelCls).muts
                  (newModel (classOf cs.modelCls)) d⟩] } from rfl] at hx ⊢
    rcases List.mem_append.mp hx with h1 | h2
    · exact hall x h1
    · rw [List.mem_singleton] at h2
      rw [h2]
  | parr l hl ih =>
    intro cs hk hall
    rw [show Collection.push classOf cs (.parr l)
        = Collection.pushList classOf cs l from rfl]
    suffices hgen : ∀ l' : List (PushEl κ),
        (∀ e ∈ l', ∀ cs' : CollectionState κ, cs'.modelCls = k → AllBound cs' →
          (Collection.push classOf cs' e).modelCls = cs'.modelCls
          ∧ AllBound (Collection.push classOf cs' e)) →
        ∀ cs' : CollectionState κ, cs'.modelCls = k → AllBound cs' →
          (Collection.pushList classOf cs' l').modelCls = cs'.modelCls
          ∧ AllBound (Collection.pushList classOf cs' l') by
      exact hgen l ih cs hk hall
    intro l'
    induction l' with
    | nil =>
      intro _ cs' _ hall'
      exact ⟨rfl, hall'⟩
    | cons e rest ihl =>
      intro hmem cs' hk' hall'
      have he := hmem e (List.mem_cons_self e rest) cs' hk' hall'
      have hrest := ihl (fun e2 h2 => hmem e2 (List.mem_cons_of_mem e h2))
        (Collection.push classOf cs' e) (he.1.trans hk') he.2
      exact ⟨hrest.1.trans he.1, hrest.2⟩

/-- Marking the last model non-phantom keeps the bound class and the
class of every element. -/
theorem setLast_bound {κ : Type} (cs : CollectionState κ) (h : AllBound cs) :
    (setLastNonPhantom cs).modelCls = cs.modelCls ∧ AllBound (setLastNonPhantom cs) := by
  unfold setLastNonPhantom
  cases hg : cs.models.getLast? with
  | none => exact ⟨rfl, h⟩
  | some m =>
    refine ⟨rfl, fun x hx => ?_⟩
    show x.cls = cs.modelCls
    have hx2 : x ∈ cs.models.dropLast
        ++ [{ m with st := { m.st with isPhantom := false } }] := hx
    rcases List.mem_append.mp hx2 with h1 | h2
    · exact h x (List.dropLast_subset _ h1)
    · rw [List.mem_singleton] at h2
      rw [h2]
      show m.cls = cs.modelCls
      have hm : m ∈ cs.models := by
        rcases List.mem_getLast?_eq_getLast (l := cs.models) (x := m) (by rw [hg]; rfl)
          with ⟨hne, heq⟩
        rw [heq]
        exact List.getLast_mem hne
      exact h m hm

/-- A successful `query()` keeps the bound class and keeps every element
an instance of it. -/
theorem query_bound {ε κ : Type} (classOf : κ → ModelClass) (dp : CollectionProxy ε κ)
    (cs : CollectionState κ) (qp : Option PropsObj) (app : Option Bool)
    (cs2 : CollectionState κ) (h : Collection.query classOf dp cs qp app = .ok cs2)
    (hall : AllBound cs) : cs2.modelCls = cs.modelCls ∧ AllBound cs2 := by
  cases hq : dp.query cs (mergeParams cs.queryParams qp) with
  | error e => simp [Collection.query, hq] at h
  | ok recs =>
    simp only [Collection.query, hq] at h
    by_cases happ : app = some true
    · rw [if_neg (by simp [happ]), query_fold] at h
      simp only [Except.ok.injEq] at h
      rw [← h]
      refine ⟨rfl, fun x hx => ?_⟩
      rcases List.mem_append.mp hx with h1 | h2
      · exact hall x h1
      · rcases List.mem_map.mp h2 with ⟨d, _, hd⟩
        rw [← hd]
        rfl
    · rw [if_pos happ, query_fold] at h
      simp only [Except.ok.injEq] at h
      rw [← h]
      refine ⟨rfl, fun x hx => ?_⟩
      have hx2 : x ∈ ([] : List (MInst κ))
          ++ recs.map (queriedModel classOf (Collection.clear cs).modelCls) := hx
      rcases List.mem_append.mp hx2 with h1 | h2
      · simp at h1
      · rcases List.mem_map.mp h2 with ⟨d, _, hd⟩
        rw [← hd]
        rfl

/-- C9: for every collection with a bound model class, after any sequence
of push and query operations whose pushed model instances are of the bound
class, every element of the backing array is an instance of the bound
class — model instances are inserted as-is, plain data objects are
converted by constructing a new instance of the bound class and
bulk-setting the data. -/
theorem c9_elements_instances_of_bound_class {ε κ : Type} (classOf : κ → ModelClass)
    (cs : CollectionState κ) (ops : List (CollOp ε κ)) (cs2 : CollectionState κ)
    (h0 : AllBound cs)
    (hops : ∀ el : PushEl κ, (CollOp.push el : CollOp ε κ) ∈ ops → ElBound cs.modelCls el)
    (h : runOps classOf cs ops = .ok cs2) :
    AllBound cs2 ∧ cs2.modelCls = cs.modelCls := by
  induction ops generalizing cs with
  | nil =>
    simp only [runOps, Except.ok.injEq] at h
    rw [← h]
    exact ⟨h0, rfl⟩
  | cons op rest ih =>
    cases op with
    | push el =>
      have hb : ElBound cs.modelCls el :=
        hops el (List.mem_cons_self _ rest)
      have hp := push_bound classOf hb cs rfl h0
      have hrec := ih (Collection.push classOf cs el) hp.2
        (fun el2 h2 => hp.1 ▸ hops el2 (List.mem_cons_of_mem _ h2))
        (by simpa [runOps] using h)
      exact ⟨hrec.1, hrec.2.trans hp.1⟩
    | query dp qp app =>
      cases hq : Collection.query classOf dp cs qp app with
      | error e => simp [runOps, hq] at h
      | ok cs1 =>
        have hqb := query_bound classOf dp cs qp app cs1 hq h0
        have hrec := ih cs1 hqb.2
          (fun el2 h2 => hqb.1 ▸ hops el2 (List.mem_cons_of_mem _ h2))
          (by simpa [runOps, hq] using h)
        exact ⟨hrec.1, hrec.2.trans hqb.1⟩

/-- Witness for C9: one data push followed by a replacing query. -/
theorem c9_elements_instances_witness :
    AllBound exQueriedColl ∧ exQueriedColl.modelCls = exColl.modelCls := by
  refine c9_elements_instances_of_bound_class exClassOf exColl
    [CollOp.push (.pdata [("x", Val.vInt 3)]),
     CollOp.query exCollProxy none none] _ (fun m hm => ?_) (fun el hel => ?_) rfl
  · have hm2 : m = (⟨"TestModel", exSt⟩ : MInst String) := by
      simpa [exColl] using hm
    rw [hm2]
    rfl
  · simp only [List.mem_cons, List.not_mem_nil, or_false] at hel
    rcases hel with h1 | h2
    · cases h1
      exact ElBound.pdata _
    · cases h2

/-! ## Construction (C10) -/

theorem proxySet_getProp_ne (muts : Mutations) (s : ModelState) (q p : String) (v : Val)
    (h : p ≠ q) : getProp (proxySetProp muts s q v).props p = getProp s.props p := by
  rw [proxySetProp_props]
  exact getProp_setProp_ne s.props q p _ h

theorem foldl_proxySet_getProp_not_mem (muts : Mutations) (l : PropsObj) (s : ModelState)
    (p : String) (h : ∀ kv ∈ l, kv.1 ≠ p) :
    getProp ((l.foldl (fun t kv => proxySetProp muts t kv.1 kv.2) s).props) p
      = getProp s.props p := by
  induction l generalizing s with
  | nil => rfl
  | cons a l ih =>
    rw [List.foldl_cons, ih _ (fun kv hm => h kv (List.mem_cons_of_mem a hm))]
    exact proxySet_getProp_ne muts s a.1 p a.2 (Ne.symm (h a (List.mem_cons_self a l)))

theorem foldl_proxySet_getProp_mem (muts : Mutations) {l : PropsObj} (s : ModelState)
    {p : String} {v : Val} (hrb : s.rollbackMode = false)
    (hnd : (l.map Prod.fst).Nodup) (hmem : (p, v) ∈ l) :
    getProp ((l.foldl (fun t kv => proxySetProp muts t kv.1 kv.2) s).props) p
      = applyMut muts p v := by
  induction l generalizing s with
  | nil => simp at hmem
  | cons a l ih =>
    rw [List.map_cons, List.nodup_cons] at hnd
    rw [List.foldl_cons]
    rcases List.mem_cons.mp hmem with heq | hmema
    · have ha1 : a.1 = p := by rw [← heq]
      have ha2 : a.2 = v := by rw [← heq]
      have hnot : ∀ kv ∈ l, kv.1 ≠ p := by
        intro kv hkv hkp
        apply hnd.1
        rw [ha1]
        exact hkp ▸ List.mem_map_of_mem Prod.fst hkv
      rw [foldl_proxySet_getProp_not_mem muts l _ p hnot, proxySetProp_props, hrb]
      simp only [Bool.false_eq_true, if_false]
      rw [ha1, ha2]
      exact getProp_setProp_self s.props p (applyMut muts p v)
    · have hrb2 : (proxySetProp muts s a.1 a.2).rollbackMode = false := by
        rw [proxySetProp_rollbackMode]
        exact hrb
      exact ih _ hrb2 hnd.2 hmema

/-- C10: for every Model subtype declaring data fields with default
values, the field defaults are written through the interception layer
after the base constructor's commit, so immediately after construction
every defaulted field holds the mutation-applied default value (the raw
default when no mutation is registered) and `isDirty()` is true; a subtype
with no declared data fields has `isDirty()` false immediately after
construction. -/
theorem c10_defaults_through_interception (cls : ModelClass) :
    (cls.defaults = [] → Model.isDirty (newModel cls) = false)
    ∧ (cls.defaults ≠ [] → Model.isDirty (newModel cls) = true)
    ∧ ((cls.defaults.map Prod.fst).Nodup → ∀ p v, (p, v) ∈ cls.defaults →
        getProp (newModel cls).props p = applyMut cls.muts p v) := by
  refine ⟨fun h => ?_, fun h => ?_, fun hnd p v hmem => ?_⟩
  · simp [newModel, h, Model.commit, Model.isDirty]
  · exact set_nonempty_marks_dirty cls.muts _ cls.defaults rfl h
  · exact foldl_proxySet_getProp_mem cls.muts _ rfl hnd hmem

/-- Witness for C10 on the example subtype: the model is dirty right after
construction and the `upName` default went through its mutation. -/
theorem c10_defaults_through_interception_witness :
    Model.isDirty (newModel exClass) = true
    ∧ getProp (newModel exClass).props "upName" = applyMut exMuts "upName" (Val.vStr "leer") :=
  ⟨(c10_defaults_through_interception exClass).2.1 (by simp [exClass]),
   (c10_defaults_through_interception exClass).2.2 (by decide) "upName" (Val.vStr "leer")
     (by decide)⟩

end JsModel
